import Mathlib

/-!
Verification of the playlist reconciliation pipeline of the dj-ai backend.

The embedding follows the source: `parseAIPlaylist` and `findMatchingTrack`
from src/routes/spotify.ts, together with the matching loop and the
side-effect order of the POST /spotify/generate-from-playlist handler and
the validation guard of the POST /generate handler (src/routes/generate.ts).

JavaScript strings are modelled as Lean strings, JavaScript regular
expression matching of the song-line pattern
`^\s*(\d+[\.\)]\s*)?(.+?)\s*-\s*(.+?)\s*$`
is modelled by an explicit backtracking matcher over lists of characters
that mirrors the engine: greedy `\s*` (longest first), a greedy optional
numbering group (present first), lazy `(.+?)` (shortest first).
-/

namespace DJAI

/-- Character class of the JavaScript regex escape `\s` (WhiteSpace and
LineTerminator code points). -/
def jsWs (c : Char) : Bool :=
  c = ' ' || c = '\t' || c = '\n' || c = '\u000B' || c = '\u000C' || c = '\r' ||
  c = '\u00A0' || c = '\u1680' || ('\u2000' ≤ c && c ≤ '\u200A') ||
  c = '\u2028' || c = '\u2029' || c = '\u202F' || c = '\u205F' ||
  c = '\u3000' || c = '\uFEFF'

/-- JavaScript LineTerminator code points: the characters that `.` never
matches without the dotAll flag. -/
def jsLineTerm (c : Char) : Bool :=
  c = '\n' || c = '\r' || c = '\u2028' || c = '\u2029'

/-- The JavaScript regex `.` (no dotAll flag): any char except a line
terminator. -/
def dotMatch (c : Char) : Bool := !jsLineTerm c

/-- JavaScript String.prototype.trim on a character list: remove leading
and trailing `\s` characters. -/
def jsTrimL (l : List Char) : List Char :=
  ((l.dropWhile jsWs).reverse.dropWhile jsWs).reverse

/-- JavaScript String.prototype.trim. -/
def jsTrim (s : String) : String := String.mk (jsTrimL s.data)

/-- JavaScript String.prototype.toLowerCase, restricted to the ASCII
letters that occur in this pipeline. -/
def jsToLower (s : String) : String := String.mk (s.data.map Char.toLower)

/-- Substring test on character lists: does `needle` occur contiguously in
`hay`.  Models JavaScript String.prototype.includes. -/
def isSubstrOf (needle : List Char) : List Char → Bool
  | [] => needle.isPrefixOf []
  | c :: rest => needle.isPrefixOf (c :: rest) || isSubstrOf needle rest

/-- JavaScript `s.includes(sub)`. -/
def jsIncludes (s sub : String) : Bool := isSubstrOf sub.data s.data

/-- JavaScript String.prototype.split with a single-character separator:
split at every occurrence, keeping empty segments. -/
def splitChar (sep : Char) : List Char → List (List Char)
  | [] => [[]]
  | c :: rest =>
    if c = sep then [] :: splitChar sep rest
    else
      match splitChar sep rest with
      | l :: ls => (c :: l) :: ls
      | [] => [[c]]

/-- JavaScript Array.prototype.join. -/
def jsJoin (sep : String) : List String → String
  | [] => ""
  | [s] => s
  | s :: rest => s ++ sep ++ jsJoin sep rest

/-!  The song-line regex, stage by stage, innermost last stage first.  -/

/-- Final stage `(.+?)\s*$`: the lazy title capture followed by trailing
whitespace.  Returns the shortest nonempty `.`-matching prefix whose
remainder is all whitespace. -/
def titleCap : List Char → Option (List Char)
  | [] => none
  | c :: rest =>
    if dotMatch c then
      if rest.all jsWs then some [c]
      else
        match titleCap rest with
        | some p => some (c :: p)
        | none => none
    else none

/-- Stage `\s*(.+?)\s*$` after the separator hyphen: greedy whitespace
skip (longest skip first) then the title capture. -/
def sepTitle : List Char → Option (List Char)
  | [] => none
  | c :: rest =>
    if jsWs c then
      match sepTitle rest with
      | some p => some p
      | none => titleCap (c :: rest)
    else titleCap (c :: rest)

/-- Stage `\s*-\s*(.+?)\s*$`: the separator.  The leading greedy `\s*`
admits only the maximal skip, because every shorter skip leaves a
whitespace character where the hyphen is required. -/
def sepScan (s : List Char) : Option (List Char) :=
  match s.dropWhile jsWs with
  | c :: rest => if c = '-' then sepTitle rest else none
  | [] => none

/-- Stage `(.+?)\s*-\s*(.+?)\s*$`: the lazy artist capture.  After each
one-character extension the separator is attempted on the remainder;
the first success wins.  Returns (artist capture, title capture). -/
def artistLoop (acc : List Char) : List Char → Option (List Char × List Char)
  | [] => none
  | c :: rest =>
    if dotMatch c then
      match sepScan rest with
      | some t => some (acc ++ [c], t)
      | none => artistLoop (acc ++ [c]) rest
    else none

/-- Greedy `\s*` before the artist (inside the numbering group), longest
skip first, then the artist stage. -/
def wsSkipArtist : List Char → Option (List Char × List Char)
  | [] => none
  | c :: rest =>
    if jsWs c then
      match wsSkipArtist rest with
      | some r => some r
      | none => artistLoop [] (c :: rest)
    else artistLoop [] (c :: rest)

/-- Stage `(\d+[\.\)]\s*)?(.+?)...`: the greedy optional numbering group.
The group is attempted first (`\d+` maximal, then `.` or `)`, then greedy
`\s*`); if it cannot be completed to a full match the engine falls back to
the group being absent. -/
def numberingScan (s : List Char) : Option (List Char × List Char) :=
  match s with
  | [] => none
  | c :: rest =>
    if c.isDigit then
      match rest.dropWhile Char.isDigit with
      | d :: rest2 =>
        if d == '.' || d == ')' then
          match wsSkipArtist rest2 with
          | some r => some r
          | none => artistLoop [] s
        else artistLoop [] s
      | [] => artistLoop [] s
    else artistLoop [] s

/-- The full anchored regex `^\s*(\d+[\.\)]\s*)?(.+?)\s*-\s*(.+?)\s*$`:
greedy leading whitespace (longest skip first), then the numbering stage.
Returns the raw artist and title captures (groups 2 and 3). -/
def wsSkipTop : List Char → Option (List Char × List Char)
  | [] => none
  | c :: rest =>
    if jsWs c then
      match wsSkipTop rest with
      | some r => some r
      | none => numberingScan (c :: rest)
    else numberingScan (c :: rest)

/-- Match one response line against the song-line regex, returning the raw
artist and title captures. -/
def matchSongLine (s : String) : Option (String × String) :=
  (wsSkipTop s.data).map (fun p => (String.mk p.1, String.mk p.2))

/-- The normalized entry string pushed by parseAIPlaylist for a matching
line with raw captures p: `artist.trim() ++ " - " ++ title.trim()`. -/
def renderCaptures (p : List Char × List Char) : String :=
  String.mk (jsTrimL p.1) ++ " - " ++ String.mk (jsTrimL p.2)

/-- parseAIPlaylist from src/routes/spotify.ts: split the response on
newlines, match each line against the song-line regex, and push the
normalized entry for each matching line. -/
def parseAIPlaylist (playlistText : String) : List String :=
  (splitChar '\n' playlistText.data).foldl
    (fun songs line =>
      match wsSkipTop line with
      | some p => songs ++ [renderCaptures p]
      | none => songs)
    []

/-- The SpotifyTrack record of src/services/spotify.ts. -/
structure SpotifyTrack where
  id : String
  name : String
  artists : List String
  album : String
  uri : String
  duration_ms : Nat
deriving DecidableEq

/-- First loop of findMatchingTrack: exact title equality plus an artist
that is equal to, or contained in, the entry artist. -/
def exactTierLoop (artist title : String) : List SpotifyTrack → Option SpotifyTrack
  | [] => none
  | track :: rest =>
    match jsToLower track.name == title &&
        (track.artists.map jsToLower).any (fun a => a == artist || jsIncludes artist a) with
    | true => some track
    | false => exactTierLoop artist title rest

/-- Second loop of findMatchingTrack: title containment either way plus an
artist containment either way. -/
def lenientTierLoop (artist title : String) : List SpotifyTrack → Option SpotifyTrack
  | [] => none
  | track :: rest =>
    match jsIncludes (jsToLower track.name) title || jsIncludes title (jsToLower track.name) with
    | true =>
      match (track.artists.map jsToLower).find?
          (fun ta => jsIncludes ta artist || jsIncludes artist ta) with
      | some _ => some track
      | none => lenientTierLoop artist title rest
    | false => lenientTierLoop artist title rest

/-- findMatchingTrack from src/routes/spotify.ts: split the entry on every
hyphen, require exactly two parts, then run the exact tier and, only if it
found nothing, the lenient tier. -/
def findMatchingTrack (songString : String) (libraryTracks : List SpotifyTrack) :
    Option SpotifyTrack :=
  match splitChar '-' songString.data with
  | [p0, p1] =>
    let artist := jsToLower (String.mk (jsTrimL p0))
    let title := jsToLower (String.mk (jsTrimL p1))
    match exactTierLoop artist title libraryTracks with
    | some t => some t
    | none => lenientTierLoop artist title libraryTracks
  | _ => none

/-- The matching loop of the generate-from-playlist handler: each parsed
song contributes its matched uri to the first component or its original
entry string to the second. -/
def matchPass (playlistSongs : List String) (sourceTracks : List SpotifyTrack) :
    List String × List String :=
  playlistSongs.foldl
    (fun acc song =>
      match findMatchingTrack song sourceTracks with
      | some t => (acc.1 ++ [t.uri], acc.2)
      | none => (acc.1, acc.2 ++ [song]))
    ([], [])

/-- Predicate transcribed from the spec wording of the exact tier: the
lower-cased candidate name equals the entry lower-cased title, and at
least one lower-cased candidate artist equals the entry lower-cased artist
or is a substring of it. -/
def specExactMatches (artist title : String) (track : SpotifyTrack) : Bool :=
  jsToLower track.name == title &&
    (track.artists.map jsToLower).any (fun a => a == artist || jsIncludes artist a)

/-- Predicate transcribed from the spec wording of the lenient tier: the
lower-cased candidate name is a substring of the entry title or vice
versa, and at least one lower-cased candidate artist is a substring of the
entry artist or vice versa. -/
def specLenientMatches (artist title : String) (track : SpotifyTrack) : Bool :=
  (jsIncludes (jsToLower track.name) title || jsIncludes title (jsToLower track.name)) &&
    (track.artists.map jsToLower).any (fun a => jsIncludes a artist || jsIncludes artist a)

/-- Sample candidate track from the spec matcher examples. -/
def oyeTrack : SpotifyTrack :=
  { id := "1", name := "Oye Como Va", artists := ["Tito Puente"],
    album := "El Rey Bravo", uri := "spotify:track:oye", duration_ms := 260000 }

/-- Expected raw title capture for a well-formed line `artist - title`: for
an empty title the lazy group captures the blank before it. -/
def titleCapExp (t : List Char) : List Char := if t.isEmpty then [' '] else t

/-- Expected raw artist capture for a well-formed line `artist - title`:
for an empty artist the lazy group captures the blank before the
hyphen. -/
def artistCapExp (a : List Char) : List Char := if a.isEmpty then [' '] else a

/-- Does the list start with one or more digits followed by a period or a
closing parenthesis, the shape the numbering group of the song-line regex
strips. -/
def hasOrdinalMark (l : List Char) : Bool :=
  match l with
  | [] => false
  | c :: rest =>
    c.isDigit &&
      (match rest.dropWhile Char.isDigit with
       | d :: _ => d == '.' || d == ')'
       | [] => false)

/-- A song entry whose artist part is hyphen-free, free of line
terminators, whitespace-trimmed and does not begin with an ordinal
numbering mark, and whose title part is hyphen-free, free of line
terminators and whitespace-trimmed. -/
abbrev goodEntry (e : String × String) : Prop :=
  ('-' ∉ e.1.data ∧ (∀ c ∈ e.1.data, jsLineTerm c = false) ∧
    jsTrim e.1 = e.1 ∧ hasOrdinalMark e.1.data = false) ∧
  ('-' ∉ e.2.data ∧ (∀ c ∈ e.2.data, jsLineTerm c = false) ∧ jsTrim e.2 = e.2)

/-!  The generation endpoints, modelled over stubbed collaborators.  -/

/-- External calls the generation endpoints can make, in call order. -/
inductive Effect where
  | getUserAccessToken : Effect
  | getUserPlaylists : Effect
  | getPlaylistTracks (id : String) : Effect
  | generate : Effect
  | createPlaylist (name description : String) (isPublic : Bool) : Effect
  | addTracksToPlaylist (playlistId : String) (uris : List String) : Effect
deriving DecidableEq

/-- The JSON replies and redirects the handlers produce. -/
inductive HandlerResponse where
  | json (status : Nat) (success : Bool) (error : Option String) : HandlerResponse
  | redirect (location : String) : HandlerResponse
deriving DecidableEq

/-- Stubbed results of the external collaborators for one request: token
check, user playlist listing (name and id pairs), corpus fetch, provider
generation, playlist creation (new id) and track insertion. -/
structure Stubs where
  authOk : Bool
  userPlaylists : Except String (List (String × String))
  playlistTracks : Except String (List SpotifyTrack)
  generated : Except String String
  createdPlaylistId : Except String String
  addTracksOk : Except String Unit

/-- JavaScript falsiness of an optional string body field. -/
def falsy : Option String → Bool
  | none => true
  | some s => s == ""

/-- Validation error message shared by both generation endpoints. -/
def missingFieldsMsg : String :=
  "Missing required fields: venue, date, and style are required"

/-- The catch block of the handlers: an authentication failure becomes a
redirect to the login flow, anything else a 500 JSON error. -/
def catchResp (e : String) : HandlerResponse :=
  if e = "User is not authenticated" then HandlerResponse.redirect "/spotify/login"
  else HandlerResponse.json 500 false (some e)

/-- The character class `[a-zA-Z0-9]` of the playlist id capture. -/
def isAlnum (c : Char) : Bool :=
  ('a' ≤ c && c ≤ 'z') || ('A' ≤ c && c ≤ 'Z') || ('0' ≤ c && c ≤ '9')

/-- First capture of the unanchored regex `playlist\/([a-zA-Z0-9]+)`: the
maximal alphanumeric run after the first occurrence of `playlist/` that is
followed by at least one alphanumeric character. -/
def findPlaylistCapture : List Char → Option (List Char)
  | [] => none
  | c :: rest =>
    if ("playlist/").data.isPrefixOf (c :: rest) then
      match (List.drop 9 (c :: rest)).takeWhile isAlnum with
      | [] => findPlaylistCapture rest
      | d :: z => some (d :: z)
    else findPlaylistCapture rest

/-- Playlist id extraction of the generate-from-playlist handler: a full
playlist URL is reduced to the id captured after `playlist/`. -/
def extractPlaylistId (pid : String) : String :=
  if jsIncludes pid "spotify.com/playlist/" then
    match findPlaylistCapture pid.data with
    | some cap => String.mk cap
    | none => pid
  else pid

/-- Tail of the generate-from-playlist handler once the source playlist id
is resolved: fetch the corpus, generate, parse, create the destination
playlist, run the matching pass, and populate the playlist when at least
one track matched.  Mirrors the statement order of the source; any
collaborator error jumps to the catch block. -/
def runPipeline (venue date style sourcePlaylistId : String) (st : Stubs) :
    List Effect × HandlerResponse :=
  match st.playlistTracks with
  | Except.error e => ([Effect.getPlaylistTracks sourcePlaylistId], catchResp e)
  | Except.ok sourceTracks =>
    match st.generated with
    | Except.error e =>
      ([Effect.getPlaylistTracks sourcePlaylistId, Effect.generate], catchResp e)
    | Except.ok aiPlaylist =>
      match st.createdPlaylistId with
      | Except.error e =>
        ([Effect.getPlaylistTracks sourcePlaylistId, Effect.generate,
          Effect.createPlaylist (venue ++ " - " ++ date ++ " (" ++ style ++ ")")
            ("AI-generated " ++ style ++ " playlist for " ++ venue ++ " on " ++ date)
            false], catchResp e)
      | Except.ok newPlaylistId =>
        if 0 < (matchPass (parseAIPlaylist aiPlaylist) sourceTracks).1.length then
          match st.addTracksOk with
          | Except.error e =>
            ([Effect.getPlaylistTracks sourcePlaylistId, Effect.generate,
              Effect.createPlaylist (venue ++ " - " ++ date ++ " (" ++ style ++ ")")
                ("AI-generated " ++ style ++ " playlist for " ++ venue ++ " on " ++ date)
                false,
              Effect.addTracksToPlaylist newPlaylistId
                (matchPass (parseAIPlaylist aiPlaylist) sourceTracks).1], catchResp e)
          | Except.ok _ =>
            ([Effect.getPlaylistTracks sourcePlaylistId, Effect.generate,
              Effect.createPlaylist (venue ++ " - " ++ date ++ " (" ++ style ++ ")")
                ("AI-generated " ++ style ++ " playlist for " ++ venue ++ " on " ++ date)
                false,
              Effect.addTracksToPlaylist newPlaylistId
                (matchPass (parseAIPlaylist aiPlaylist) sourceTracks).1],
              HandlerResponse.json 200 true none)
        else
          ([Effect.getPlaylistTracks sourcePlaylistId, Effect.generate,
            Effect.createPlaylist (venue ++ " - " ++ date ++ " (" ++ style ++ ")")
              ("AI-generated " ++ style ++ " playlist for " ++ venue ++ " on " ++ date)
              false],
            HandlerResponse.json 200 true none)

/-- POST /spotify/generate-from-playlist handler of src/routes/spotify.ts:
field validation, token check, source playlist resolution (library lookup
when no id is given, URL extraction when one is), then the pipeline. -/
def generateFromPlaylistHandler (venue date style playlistId : Option String)
    (libraryPlaylistId : Option String) (st : Stubs) :
    List Effect × HandlerResponse :=
  if falsy venue || falsy date || falsy style then
    ([], HandlerResponse.json 400 false (some missingFieldsMsg))
  else if !st.authOk then
    ([Effect.getUserAccessToken], HandlerResponse.redirect "/spotify/login")
  else if falsy playlistId then
    match libraryPlaylistId with
    | some libId =>
      let r := runPipeline (venue.getD "") (date.getD "") (style.getD "") libId st
      (Effect.getUserAccessToken :: r.1, r.2)
    | none =>
      match st.userPlaylists with
      | Except.error e =>
        ([Effect.getUserAccessToken, Effect.getUserPlaylists], catchResp e)
      | Except.ok playlists =>
        match playlists.find? (fun p => p.1 == "DJ AI Song Library") with
        | some p =>
          let r := runPipeline (venue.getD "") (date.getD "") (style.getD "") p.2 st
          (Effect.getUserAccessToken :: Effect.getUserPlaylists :: r.1, r.2)
        | none =>
          ([Effect.getUserAccessToken, Effect.getUserPlaylists],
            HandlerResponse.json 404 false
              (some "Library playlist not found. Please create it first using /create-library-playlist endpoint or provide a specific playlist ID."))
  else
    let r := runPipeline (venue.getD "") (date.getD "") (style.getD "")
      (extractPlaylistId (playlistId.getD "")) st
    (Effect.getUserAccessToken :: r.1, r.2)

/-- POST /generate handler of src/routes/generate.ts: field validation
then a single provider call. -/
def generateHandler (venue date style : Option String) (st : Stubs) :
    List Effect × HandlerResponse :=
  if falsy venue || falsy date || falsy style then
    ([], HandlerResponse.json 400 false (some missingFieldsMsg))
  else
    match st.generated with
    | Except.ok _ => ([Effect.generate], HandlerResponse.json 200 true none)
    | Except.error e => ([Effect.generate], HandlerResponse.json 500 false (some e))

/-- A fully successful stub environment used by the witnesses. -/
def stubsOk : Stubs :=
  { authOk := true
    userPlaylists := Except.ok []
    playlistTracks := Except.ok [oyeTrack]
    generated := Except.ok "Tito Puente - Oye Como Va"
    createdPlaylistId := Except.ok "NEWPL"
    addTracksOk := Except.ok () }

/-!  Helper lemmas.  -/

/-- The matching loop preserves the count invariant for every starting
accumulator. -/
lemma matchPass_foldl_length (sourceTracks : List SpotifyTrack) :
    ∀ (songs : List String) (acc : List String × List String),
      ((songs.foldl
          (fun acc song =>
            match findMatchingTrack song sourceTracks with
            | some t => (acc.1 ++ [t.uri], acc.2)
            | none => (acc.1, acc.2 ++ [song])) acc).1.length +
        (songs.foldl
          (fun acc song =>
            match findMatchingTrack song sourceTracks with
            | some t => (acc.1 ++ [t.uri], acc.2)
            | none => (acc.1, acc.2 ++ [song])) acc).2.length)
        = acc.1.length + acc.2.length + songs.length := by
  intro songs
  induction songs with
  | nil => intro acc; simp
  | cons s rest ih =>
    intro acc
    simp only [List.foldl_cons]
    cases hf : findMatchingTrack s sourceTracks with
    | none =>
      rw [hf] at *
      rw [ih]
      simp
      omega
    | some t =>
      rw [hf] at *
      rw [ih]
      simp
      omega

/-- A malformed entry (hyphen split not of length two) never matches, for
any candidate list. -/
lemma findMatchingTrack_malformed (s : String)
    (h : (splitChar '-' s.data).length ≠ 2) :
    ∀ tracks, findMatchingTrack s tracks = none := by
  intro tracks
  rcases hs : splitChar '-' s.data with _ | ⟨a, _ | ⟨b, _ | ⟨c, r⟩⟩⟩
  · simp [findMatchingTrack, hs]
  · simp [findMatchingTrack, hs]
  · exact absurd (by rw [hs]; rfl) h
  · simp [findMatchingTrack, hs]

/-- The hyphen split produces one part more than the number of hyphens. -/
lemma splitChar_ne_nil (sep : Char) : ∀ l : List Char, splitChar sep l ≠ [] := by
  intro l
  cases l with
  | nil => simp [splitChar]
  | cons c rest =>
    simp only [splitChar]
    by_cases hc : c = sep
    · simp [hc]
    · simp only [hc, if_false]
      cases h : splitChar sep rest with
      | nil => simp
      | cons x xs => simp

/-- Number of segments equals number of separators plus one. -/
lemma splitChar_length (sep : Char) :
    ∀ l : List Char, (splitChar sep l).length = l.count sep + 1 := by
  intro l
  induction l with
  | nil => rfl
  | cons c rest ih =>
    by_cases hc : c = sep
    · subst hc
      simp [splitChar, List.count_cons, ih]
    · cases h : splitChar sep rest with
      | nil => exact absurd h (splitChar_ne_nil sep rest)
      | cons x xs =>
        simp only [splitChar, hc, if_false, h]
        rw [h] at ih
        simp only [List.length_cons] at ih ⊢
        rw [List.count_cons]
        simp [hc, ih]

/-- The exact tier is a first-match scan. -/
lemma exactTierLoop_eq_find (artist title : String) :
    ∀ tracks, exactTierLoop artist title tracks
      = tracks.find? (specExactMatches artist title) := by
  intro tracks
  induction tracks with
  | nil => rfl
  | cons t rest ih =>
    show (match jsToLower t.name == title &&
        (t.artists.map jsToLower).any (fun a => a == artist || jsIncludes artist a) with
      | true => some t
      | false => exactTierLoop artist title rest) = _
    cases hc : (jsToLower t.name == title &&
        (t.artists.map jsToLower).any (fun a => a == artist || jsIncludes artist a)) with
    | true =>
      rw [List.find?_cons_of_pos _ (show specExactMatches artist title t = true from hc)]
    | false =>
      rw [List.find?_cons_of_neg _
        (show ¬ specExactMatches artist title t = true by rw [specExactMatches, hc]; exact Bool.false_ne_true)]
      exact ih

/-- The lenient tier is a first-match scan. -/
lemma lenientTierLoop_eq_find (artist title : String) :
    ∀ tracks, lenientTierLoop artist title tracks
      = tracks.find? (specLenientMatches artist title) := by
  intro tracks
  induction tracks with
  | nil => rfl
  | cons t rest ih =>
    show (match jsIncludes (jsToLower t.name) title || jsIncludes title (jsToLower t.name) with
      | true =>
        match (t.artists.map jsToLower).find?
            (fun ta => jsIncludes ta artist || jsIncludes artist ta) with
        | some _ => some t
        | none => lenientTierLoop artist title rest
      | false => lenientTierLoop artist title rest) = _
    cases h1 : (jsIncludes (jsToLower t.name) title || jsIncludes title (jsToLower t.name)) with
    | true =>
      cases hf : (t.artists.map jsToLower).find?
          (fun ta => jsIncludes ta artist || jsIncludes artist ta) with
      | some a =>
        have hmem := List.mem_of_find?_eq_some hf
        have hpa := List.find?_some hf
        have hany : ((t.artists.map jsToLower).any
            (fun ta => jsIncludes ta artist || jsIncludes artist ta)) = true :=
          List.any_eq_true.mpr ⟨a, hmem, hpa⟩
        rw [List.find?_cons_of_pos _
          (show specLenientMatches artist title t = true by
            rw [specLenientMatches, h1, hany]; rfl)]
      | none =>
        have hany : ((t.artists.map jsToLower).any
            (fun ta => jsIncludes ta artist || jsIncludes artist ta)) = false := by
          rw [List.any_eq_false]
          intro x hx
          simpa using List.find?_eq_none.mp hf x hx
        rw [List.find?_cons_of_neg _
          (show ¬ specLenientMatches artist title t = true by
            rw [specLenientMatches, h1, hany]; simp)]
        exact ih
    | false =>
      rw [List.find?_cons_of_neg _
        (show ¬ specLenientMatches artist title t = true by
          rw [specLenientMatches, h1]; simp)]
      exact ih

/-- One-step unfolding of the title capture. -/
lemma titleCap_cons (c : Char) (rest : List Char) :
    titleCap (c :: rest) =
      if dotMatch c then
        if rest.all jsWs then some [c]
        else
          match titleCap rest with
          | some p => some (c :: p)
          | none => none
      else none := rfl

/-- One-step unfolding of the post-separator stage. -/
lemma sepTitle_cons (c : Char) (l : List Char) :
    sepTitle (c :: l) =
      if jsWs c then
        match sepTitle l with
        | some p => some p
        | none => titleCap (c :: l)
      else titleCap (c :: l) := rfl

/-- One-step unfolding of the artist loop. -/
lemma artistLoop_cons (acc : List Char) (c : Char) (l : List Char) :
    artistLoop acc (c :: l) =
      if dotMatch c then
        match sepScan l with
        | some t => some (acc ++ [c], t)
        | none => artistLoop (acc ++ [c]) l
      else none := rfl

/-- One-step unfolding of the leading whitespace skip. -/
lemma wsSkipTop_cons (c : Char) (l : List Char) :
    wsSkipTop (c :: l) =
      if jsWs c then
        match wsSkipTop l with
        | some r => some r
        | none => numberingScan (c :: l)
      else numberingScan (c :: l) := rfl

/-- If dropWhile leaves a list unchanged, its head does not satisfy the
predicate. -/
lemma dropWhile_eq_self_head (p : Char → Bool) (l : List Char)
    (h : l.dropWhile p = l) : ∀ c, l.head? = some c → p c = false := by
  intro c hc
  cases l with
  | nil => simp at hc
  | cons x xs =>
    have hxc : x = c := by simpa using hc
    cases hp : p x with
    | false => rw [← hxc]; exact hp
    | true =>
      rw [List.dropWhile_cons, if_pos hp] at h
      have hle := (List.dropWhile_sublist (l := xs) p).length_le
      rw [h] at hle
      simp at hle

/-- A trimmed list is unchanged by a front dropWhile and by a back
dropWhile. -/
lemma jsTrimL_eq_self_parts (l : List Char) (h : jsTrimL l = l) :
    l.dropWhile jsWs = l ∧ l.reverse.dropWhile jsWs = l.reverse := by
  have h1 : (l.dropWhile jsWs).length ≤ l.length :=
    (List.dropWhile_sublist jsWs).length_le
  have h2 : (jsTrimL l).length ≤ (l.dropWhile jsWs).length := by
    unfold jsTrimL
    rw [List.length_reverse]
    calc ((l.dropWhile jsWs).reverse.dropWhile jsWs).length
        ≤ (l.dropWhile jsWs).reverse.length :=
          (List.dropWhile_sublist jsWs).length_le
      _ = (l.dropWhile jsWs).length := List.length_reverse _
  rw [h] at h2
  have hlen : (l.dropWhile jsWs).length = l.length := le_antisymm h1 h2
  have hdw : l.dropWhile jsWs = l :=
    (List.dropWhile_sublist jsWs).eq_of_length hlen
  refine ⟨hdw, ?_⟩
  have h3 : (l.reverse.dropWhile jsWs).reverse = l := by
    unfold jsTrimL at h
    rw [hdw] at h
    exact h
  have h4 := congrArg List.reverse h3
  simpa using h4

/-- The head of a trimmed list is not whitespace. -/
lemma trimmed_head (l : List Char) (h : jsTrimL l = l) :
    ∀ c, l.head? = some c → jsWs c = false :=
  dropWhile_eq_self_head jsWs l (jsTrimL_eq_self_parts l h).1

/-- The last element of a trimmed list is not whitespace. -/
lemma trimmed_last (l : List Char) (h : jsTrimL l = l) :
    ∀ c, l.getLast? = some c → jsWs c = false := by
  intro c hc
  exact dropWhile_eq_self_head jsWs l.reverse (jsTrimL_eq_self_parts l h).2 c
    (by rw [List.head?_reverse]; exact hc)

/-- On a nonempty dot-matching list whose last element is not whitespace,
the lazy title capture takes the whole list. -/
lemma titleCap_full :
    ∀ (t : List Char), t ≠ [] → (∀ c ∈ t, dotMatch c = true) →
      (∀ c, t.getLast? = some c → jsWs c = false) →
      titleCap t = some t := by
  intro t
  induction t with
  | nil => intro h _ _; exact absurd rfl h
  | cons c rest ih =>
    intro _ hdot hlast
    have hc : dotMatch c = true := hdot c (List.mem_cons_self _ _)
    cases rest with
    | nil => simp [titleCap, hc]
    | cons d rest2 =>
      have hrest_ne : (d :: rest2) ≠ [] := by simp
      have hlast2 : ∀ x, (d :: rest2).getLast? = some x → jsWs x = false := by
        intro x hx
        exact hlast x (by rw [List.getLast?_cons_cons]; exact hx)
      have hall : ((d :: rest2).all jsWs) = false := by
        cases hall : (d :: rest2).all jsWs with
        | false => rfl
        | true =>
          have hy : (d :: rest2).getLast? = some ((d :: rest2).getLast hrest_ne) :=
            List.getLast?_eq_getLast _ hrest_ne
          have hyws := List.all_eq_true.mp hall _ (List.getLast_mem hrest_ne)
          rw [hlast2 _ hy] at hyws
          cases hyws
      have hrec := ih hrest_ne
        (fun x hx => hdot x (List.mem_cons_of_mem c hx)) hlast2
      rw [titleCap_cons, if_pos hc, if_neg (by rw [hall]; exact Bool.false_ne_true), hrec]

/-- The post-separator stage at a non-whitespace head is just the title
capture. -/
lemma sepTitle_not_ws (c : Char) (l : List Char) (h : jsWs c = false) :
    sepTitle (c :: l) = titleCap (c :: l) := by
  simp [sepTitle, h]

/-- The post-separator stage on a blank followed by a trimmed dot-matching
title yields the expected capture. -/
lemma sepTitle_space (t : List Char)
    (hdot : ∀ c ∈ t, dotMatch c = true)
    (hhead : ∀ c, t.head? = some c → jsWs c = false)
    (hlast : ∀ c, t.getLast? = some c → jsWs c = false) :
    sepTitle (' ' :: t) = some (titleCapExp t) := by
  cases t with
  | nil => decide
  | cons d rest =>
    have hd : jsWs d = false := hhead d rfl
    have hfull := titleCap_full (d :: rest) (by simp) hdot hlast
    have hstep : sepTitle (d :: rest) = titleCap (d :: rest) :=
      sepTitle_not_ws d rest hd
    rw [sepTitle_cons, if_pos (show jsWs ' ' = true from rfl), hstep, hfull]
    rfl

/-- Skipping a whitespace character in front of the separator scan. -/
lemma sepScan_cons_ws (c : Char) (l : List Char) (h : jsWs c = true) :
    sepScan (c :: l) = sepScan l := by
  simp [sepScan, List.dropWhile_cons, h]

/-- The separator scan at a non-whitespace head. -/
lemma sepScan_cons_not_ws (c : Char) (l : List Char) (h : jsWs c = false) :
    sepScan (c :: l) = if c = '-' then sepTitle l else none := by
  simp [sepScan, List.dropWhile_cons, h]

/-- The separator scan fails on a hyphen-free list. -/
lemma sepScan_no_hyphen : ∀ (s : List Char), '-' ∉ s → sepScan s = none := by
  intro s
  induction s with
  | nil => intro _; rfl
  | cons c rest ih =>
    intro h
    have hc : c ≠ '-' := fun he => h (he ▸ List.mem_cons_self c rest)
    cases hws : jsWs c with
    | true =>
      rw [sepScan_cons_ws c rest hws]
      exact ih (fun hm => h (List.mem_cons_of_mem c hm))
    | false => rw [sepScan_cons_not_ws c rest hws, if_neg hc]

/-- The separator scan succeeds at the actual ` - ` separator of a
well-formed line. -/
lemma sepScan_sep (t : List Char)
    (hdot : ∀ c ∈ t, dotMatch c = true)
    (hhead : ∀ c, t.head? = some c → jsWs c = false)
    (hlast : ∀ c, t.getLast? = some c → jsWs c = false) :
    sepScan (' ' :: '-' :: ' ' :: t) = some (titleCapExp t) := by
  rw [sepScan_cons_ws ' ' _ rfl]
  rw [sepScan_cons_not_ws '-' _ rfl, if_pos rfl]
  exact sepTitle_space t hdot hhead hlast

/-- The separator scan fails everywhere strictly inside the artist part. -/
lemma sepScan_append_none :
    ∀ (a : List Char), ∀ (r : List Char), a ≠ [] → '-' ∉ a →
      (∀ c, a.getLast? = some c → jsWs c = false) →
      sepScan (a ++ r) = none := by
  intro a
  induction a with
  | nil => intro r h _ _; exact absurd rfl h
  | cons c rest ih =>
    intro r _ hhyp hlast
    have hne : c ≠ '-' := fun he => hhyp (he ▸ List.mem_cons_self _ _)
    cases rest with
    | nil =>
      have hc : jsWs c = false := hlast c rfl
      rw [List.cons_append, List.nil_append, sepScan_cons_not_ws c r hc, if_neg hne]
    | cons d rest2 =>
      have hlast2 : ∀ x, (d :: rest2).getLast? = some x → jsWs x = false := by
        intro x hx
        exact hlast x (by rw [List.getLast?_cons_cons]; exact hx)
      have hhyp2 : '-' ∉ (d :: rest2) := fun hm => hhyp (List.mem_cons_of_mem c hm)
      rw [List.cons_append]
      cases hws : jsWs c with
      | true =>
        rw [sepScan_cons_ws c _ hws]
        exact ih r (by simp) hhyp2 hlast2
      | false => rw [sepScan_cons_not_ws c _ hws, if_neg hne]

/-- The artist loop fails on a hyphen-free remainder. -/
lemma artistLoop_no_hyphen :
    ∀ (s : List Char) (acc : List Char), '-' ∉ s → artistLoop acc s = none := by
  intro s
  induction s with
  | nil => intro acc _; rfl
  | cons c rest ih =>
    intro acc h
    have hs : sepScan rest = none :=
      sepScan_no_hyphen rest (fun hm => h (List.mem_cons_of_mem c hm))
    cases hdot : dotMatch c with
    | false => simp [artistLoop, hdot]
    | true =>
      simp only [artistLoop, hdot, if_true, hs]
      exact ih (acc ++ [c]) (fun hm => h (List.mem_cons_of_mem c hm))

/-- The artist loop walks through the whole hyphen-free artist part and
succeeds at the first position where the separator scan succeeds. -/
lemma artistLoop_append :
    ∀ (a : List Char), ∀ (acc r T : List Char), a ≠ [] → '-' ∉ a →
      (∀ c ∈ a, dotMatch c = true) →
      (∀ c, a.getLast? = some c → jsWs c = false) →
      sepScan r = some T →
      artistLoop acc (a ++ r) = some (acc ++ a, T) := by
  intro a
  induction a with
  | nil => intro acc r T h _ _ _ _; exact absurd rfl h
  | cons c rest ih =>
    intro acc r T _ hhyp hdot hlast hr
    have hc : dotMatch c = true := hdot c (List.mem_cons_self _ _)
    cases rest with
    | nil =>
      rw [List.cons_append, List.nil_append]
      simp [artistLoop, hc, hr]
    | cons d rest2 =>
      have hsep : sepScan ((d :: rest2) ++ r) = none :=
        sepScan_append_none (d :: rest2) r (by simp)
          (fun hm => hhyp (List.mem_cons_of_mem c hm))
          (fun x hx => hlast x (by rw [List.getLast?_cons_cons]; exact hx))
      have hrec := ih (acc ++ [c]) r T (by simp)
        (fun hm => hhyp (List.mem_cons_of_mem c hm))
        (fun x hx => hdot x (List.mem_cons_of_mem c hx))
        (fun x hx => hlast x (by rw [List.getLast?_cons_cons]; exact hx)) hr
      calc artistLoop acc ((c :: d :: rest2) ++ r)
          = artistLoop acc (c :: ((d :: rest2) ++ r)) := by rw [List.cons_append]
        _ = artistLoop (acc ++ [c]) ((d :: rest2) ++ r) := by
              rw [artistLoop_cons, if_pos hc, hsep]
        _ = some (acc ++ [c] ++ (d :: rest2), T) := hrec
        _ = some (acc ++ (c :: d :: rest2), T) := by simp

/-- dropWhile over an append when the whole first part satisfies the
predicate. -/
lemma dropWhile_append_all (p : Char → Bool) :
    ∀ (l x : List Char), l.all p = true → (l ++ x).dropWhile p = x.dropWhile p := by
  intro l
  induction l with
  | nil => intro x _; rfl
  | cons c rest ih =>
    intro x hall
    rw [List.all_cons, Bool.and_eq_true] at hall
    rw [List.cons_append, List.dropWhile_cons, if_pos hall.1]
    exact ih x hall.2

/-- dropWhile over an append when it stops inside the first part. -/
lemma dropWhile_append_of_ne (p : Char → Bool) :
    ∀ (l x dz : List Char), l.dropWhile p = dz → dz ≠ [] →
      (l ++ x).dropWhile p = dz ++ x := by
  intro l
  induction l with
  | nil =>
    intro x dz h hne
    exact absurd h.symm hne
  | cons c rest ih =>
    intro x dz h hne
    rw [List.dropWhile_cons] at h
    by_cases hc : p c = true
    · rw [if_pos hc] at h
      rw [List.cons_append, List.dropWhile_cons, if_pos hc]
      exact ih x dz h hne
    · rw [if_neg hc] at h
      rw [List.cons_append, List.dropWhile_cons, if_neg hc, ← h]
      rfl

/-- With no ordinal mark on the artist part, the numbering group cannot
fire and the engine goes straight to the artist stage. -/
lemma numberingScan_no_mark :
    ∀ (a rest : List Char), hasOrdinalMark a = false →
      numberingScan (a ++ ' ' :: rest) = artistLoop [] (a ++ ' ' :: rest) := by
  intro a rest hmark
  cases a with
  | nil =>
    rw [List.nil_append]
    simp [numberingScan, show (' ').isDigit = false from rfl]
  | cons c a2 =>
    rw [List.cons_append]
    cases hd : c.isDigit with
    | false => simp [numberingScan, hd]
    | true =>
      simp only [hasOrdinalMark, hd, Bool.true_and] at hmark
      cases hdw : a2.dropWhile Char.isDigit with
      | nil =>
        have hall : a2.all Char.isDigit = true := by
          rw [List.all_eq_true]
          intro x hx
          by_contra hpx
          have : a2.dropWhile Char.isDigit ≠ [] := by
            intro hcon
            have := List.dropWhile_eq_nil_iff.mp hcon x hx
            exact hpx this
          exact this hdw
        have hrw : (a2 ++ ' ' :: rest).dropWhile Char.isDigit = ' ' :: rest := by
          rw [dropWhile_append_all Char.isDigit a2 (' ' :: rest) hall]
          rw [List.dropWhile_cons, if_neg (by simp)]
        simp only [numberingScan, hd, hrw]
        rw [if_pos trivial, if_neg (by decide)]
      | cons e z =>
        rw [hdw] at hmark
        have hmark2 : (e == '.' || e == ')') = false := hmark
        have hrw : (a2 ++ ' ' :: rest).dropWhile Char.isDigit = e :: (z ++ ' ' :: rest) := by
          have h := dropWhile_append_of_ne Char.isDigit a2 (' ' :: rest) (e :: z) hdw (by simp)
          simpa using h
        simp only [numberingScan, hd, hrw]
        rw [if_pos trivial, if_neg (by rw [hmark2]; exact Bool.false_ne_true)]

/-- The full matcher on a well-formed line with a nonempty artist part. -/
lemma wsSkipTop_wellformed (a t : List Char)
    (hane : a ≠ [])
    (hhyp : '-' ∉ a)
    (hdot : ∀ c ∈ a, dotMatch c = true)
    (htrima : jsTrimL a = a)
    (hmark : hasOrdinalMark a = false)
    (htdot : ∀ c ∈ t, dotMatch c = true)
    (htrimt : jsTrimL t = t) :
    wsSkipTop (a ++ ' ' :: '-' :: ' ' :: t) = some (a, titleCapExp t) := by
  obtain ⟨c, a2, rfl⟩ : ∃ c a2, a = c :: a2 := by
    cases a with
    | nil => exact absurd rfl hane
    | cons c a2 => exact ⟨c, a2, rfl⟩
  have hheadc : jsWs c = false := trimmed_head _ htrima c rfl
  have hstep1 : wsSkipTop ((c :: a2) ++ ' ' :: '-' :: ' ' :: t)
      = numberingScan ((c :: a2) ++ ' ' :: '-' :: ' ' :: t) := by
    rw [List.cons_append, wsSkipTop_cons, if_neg (by rw [hheadc]; exact Bool.false_ne_true),
      ← List.cons_append]
  rw [hstep1, numberingScan_no_mark (c :: a2) ('-' :: ' ' :: t) hmark]
  have hsep : sepScan (' ' :: '-' :: ' ' :: t) = some (titleCapExp t) :=
    sepScan_sep t htdot (trimmed_head _ htrimt) (trimmed_last _ htrimt)
  have h := artistLoop_append (c :: a2) [] (' ' :: '-' :: ' ' :: t) (titleCapExp t)
    hane hhyp hdot (trimmed_last _ htrima) hsep
  rw [h]
  simp

/-- The full matcher on a well-formed line with an empty artist part and a
hyphen-free title part. -/
lemma wsSkipTop_empty_artist (t : List Char)
    (hthyp : '-' ∉ t)
    (htdot : ∀ c ∈ t, dotMatch c = true)
    (htrimt : jsTrimL t = t) :
    wsSkipTop (' ' :: '-' :: ' ' :: t) = some ([' '], titleCapExp t) := by
  have hnot : '-' ∉ (' ' :: t) := by
    intro hm
    rcases List.mem_cons.mp hm with h | h
    · cases h
    · exact hthyp h
  have hinner : wsSkipTop ('-' :: ' ' :: t) = none := by
    rw [wsSkipTop_cons, if_neg (by simp [jsWs])]
    have hart : artistLoop [] ('-' :: ' ' :: t) = none := by
      rw [artistLoop_cons, if_pos (show dotMatch '-' = true from rfl)]
      rw [sepScan_no_hyphen (' ' :: t) hnot]
      exact artistLoop_no_hyphen (' ' :: t) ['-'] hnot
    simp [numberingScan, show ('-').isDigit = false from rfl, hart]
  rw [wsSkipTop_cons, if_pos (show jsWs ' ' = true from rfl), hinner]
  have hnum : numberingScan (' ' :: '-' :: ' ' :: t)
      = artistLoop [] (' ' :: '-' :: ' ' :: t) := by
    simp [numberingScan, show (' ').isDigit = false from rfl]
  rw [hnum, artistLoop_cons, if_pos (show dotMatch ' ' = true from rfl)]
  rw [sepScan_cons_not_ws '-' _ rfl, if_pos rfl]
  rw [sepTitle_space t htdot (trimmed_head _ htrimt) (trimmed_last _ htrimt)]
  simp

/-- The full matcher on any well-formed `artist - title` line. -/
lemma wsSkipTop_entry_line (a t : List Char)
    (hhyp : '-' ∉ a)
    (hdot : ∀ c ∈ a, dotMatch c = true)
    (htrima : jsTrimL a = a)
    (hmark : hasOrdinalMark a = false)
    (hthyp : a = [] → '-' ∉ t)
    (htdot : ∀ c ∈ t, dotMatch c = true)
    (htrimt : jsTrimL t = t) :
    wsSkipTop (a ++ ' ' :: '-' :: ' ' :: t) = some (artistCapExp a, titleCapExp t) := by
  cases ha : a with
  | nil =>
    subst ha
    rw [List.nil_append]
    rw [wsSkipTop_empty_artist t (hthyp rfl) htdot htrimt]
    rfl
  | cons c a2 =>
    subst ha
    rw [wsSkipTop_wellformed (c :: a2) t (by simp) hhyp hdot htrima hmark htdot htrimt]
    rfl

/-- Trimming the expected title capture recovers the title part. -/
lemma jsTrimL_titleCapExp (t : List Char) (ht : jsTrimL t = t) :
    jsTrimL (titleCapExp t) = t := by
  cases t with
  | nil => decide
  | cons d r => simpa [titleCapExp] using ht

/-- Trimming the expected artist capture recovers the artist part. -/
lemma jsTrimL_artistCapExp (a : List Char) (ha : jsTrimL a = a) :
    jsTrimL (artistCapExp a) = a := by
  cases a with
  | nil => decide
  | cons d r => simpa [artistCapExp] using ha

/-- The character list of an `artist - title` line. -/
lemma entry_line_data (a t : String) :
    (a ++ " - " ++ t).data = a.data ++ ' ' :: '-' :: ' ' :: t.data := by
  rw [String.data_append, String.data_append]
  rw [show (" - ").data = [' ', '-', ' '] from rfl]
  simp

/-- A string fixed by jsTrim has a character list fixed by jsTrimL. -/
lemma jsTrim_fix_data (s : String) (h : jsTrim s = s) :
    jsTrimL s.data = s.data :=
  congrArg String.data h

/-- A nonempty string has a nonempty character list. -/
lemma data_ne_nil (s : String) (h : s ≠ "") : s.data ≠ [] := by
  intro hd
  apply h
  have h2 := congrArg String.mk hd
  exact h2

/-- One-step unfolding of the character split. -/
lemma splitChar_cons (sep c : Char) (rest : List Char) :
    splitChar sep (c :: rest) =
      if c = sep then [] :: splitChar sep rest
      else
        match splitChar sep rest with
        | l :: ls => (c :: l) :: ls
        | [] => [[c]] := rfl

/-- Splitting a separator-free list yields that single segment. -/
lemma splitChar_no_sep (sep : Char) : ∀ l : List Char, sep ∉ l → splitChar sep l = [l] := by
  intro l
  induction l with
  | nil => intro _; rfl
  | cons c rest ih =>
    intro h
    have hc : c ≠ sep := fun he => h (he ▸ List.mem_cons_self _ _)
    have hr := ih (fun hm => h (List.mem_cons_of_mem c hm))
    rw [splitChar_cons, if_neg hc, hr]

/-- Splitting peels off a separator-free first segment. -/
lemma splitChar_append_sep (sep : Char) :
    ∀ (xs ys : List Char), sep ∉ xs →
      splitChar sep (xs ++ sep :: ys) = xs :: splitChar sep ys := by
  intro xs
  induction xs with
  | nil =>
    intro ys _
    rw [List.nil_append, splitChar_cons, if_pos rfl]
  | cons c rest ih =>
    intro ys h
    have hc : c ≠ sep := fun he => h (he ▸ List.mem_cons_self _ _)
    rw [List.cons_append, splitChar_cons, if_neg hc,
      ih ys (fun hm => h (List.mem_cons_of_mem c hm))]

/-- Splitting a newline join of newline-free lines recovers the lines. -/
lemma splitChar_jsJoin :
    ∀ (lines : List String), lines ≠ [] → (∀ l ∈ lines, '\n' ∉ l.data) →
      splitChar '\n' (jsJoin "\n" lines).data = lines.map String.data := by
  intro lines
  induction lines with
  | nil => intro h _; exact absurd rfl h
  | cons s rest ih =>
    intro _ hno
    cases rest with
    | nil =>
      show splitChar '\n' (jsJoin "\n" [s]).data = [s.data]
      rw [show jsJoin "\n" [s] = s from rfl]
      exact splitChar_no_sep '\n' s.data (hno s (by simp))
    | cons s2 rest2 =>
      have hjoin : jsJoin "\n" (s :: s2 :: rest2)
          = s ++ "\n" ++ jsJoin "\n" (s2 :: rest2) := rfl
      rw [hjoin, String.data_append, String.data_append]
      rw [show ("\n").data = ['\n'] from rfl, List.append_assoc]
      rw [show (['\n'] ++ (jsJoin "\n" (s2 :: rest2)).data)
          = '\n' :: (jsJoin "\n" (s2 :: rest2)).data from rfl]
      rw [splitChar_append_sep '\n' s.data _ (hno s (by simp))]
      rw [ih (by simp) (fun l hl => hno l (List.mem_cons_of_mem s hl))]
      rfl

/-- Rendering the expected captures of a well-formed line reproduces the
normalized entry string. -/
lemma renderCaptures_entry (a t : String)
    (htrimA : jsTrim a = a) (htrimT : jsTrim t = t) :
    renderCaptures (artistCapExp a.data, titleCapExp t.data) = a ++ " - " ++ t := by
  unfold renderCaptures
  rw [show (artistCapExp a.data, titleCapExp t.data).1 = artistCapExp a.data from rfl]
  rw [show (artistCapExp a.data, titleCapExp t.data).2 = titleCapExp t.data from rfl]
  rw [jsTrimL_artistCapExp a.data (jsTrim_fix_data a htrimA),
    jsTrimL_titleCapExp t.data (jsTrim_fix_data t htrimT)]

/-- The matcher on the joined entry string of a good entry. -/
lemma wsSkipTop_entry_string (a t : String)
    (hhyp : '-' ∉ a.data) (hdotA : ∀ c ∈ a.data, jsLineTerm c = false)
    (htrimA : jsTrim a = a) (hmark : hasOrdinalMark a.data = false)
    (hthyp : '-' ∉ t.data) (hdotT : ∀ c ∈ t.data, jsLineTerm c = false)
    (htrimT : jsTrim t = t) :
    wsSkipTop ((a ++ " - " ++ t).data)
      = some (artistCapExp a.data, titleCapExp t.data) := by
  rw [entry_line_data]
  exact wsSkipTop_entry_line a.data t.data hhyp
    (fun c hc => by simp [dotMatch, hdotA c hc]) (jsTrim_fix_data a htrimA) hmark
    (fun _ => hthyp) (fun c hc => by simp [dotMatch, hdotT c hc])
    (jsTrim_fix_data t htrimT)

/-- The filterMap over the lines of good entries is the identity on the
rendered entries. -/
lemma filterMap_entry_lines :
    ∀ (entries : List (String × String)), (∀ e ∈ entries, goodEntry e) →
      List.filterMap (fun line => (wsSkipTop line).map renderCaptures)
          (entries.map (fun e => (e.1 ++ " - " ++ e.2).data))
        = entries.map (fun e => e.1 ++ " - " ++ e.2) := by
  intro entries
  induction entries with
  | nil => intro _; rfl
  | cons e es ih =>
    intro h
    obtain ⟨⟨h1, h2, h3, h4⟩, h5, h6, h7⟩ := h e (List.mem_cons_self _ _)
    have hline := wsSkipTop_entry_string e.1 e.2 h1 h2 h3 h4 h5 h6 h7
    simp only [List.map_cons, List.filterMap_cons, hline]
    rw [show (Option.map renderCaptures
        (some (artistCapExp e.1.data, titleCapExp e.2.data)))
        = some (renderCaptures (artistCapExp e.1.data, titleCapExp e.2.data)) from rfl]
    rw [renderCaptures_entry e.1 e.2 h3 h7]
    rw [ih (fun x hx => h x (List.mem_cons_of_mem e hx))]

/-- A playlist creation effect occurs in the pipeline trace only when the
generation stub succeeded. -/
lemma runPipeline_create_generated (venue date style pid : String) (st : Stubs) :
    ∀ n d p, Effect.createPlaylist n d p ∈ (runPipeline venue date style pid st).1 →
      ∃ text, st.generated = Except.ok text := by
  obtain ⟨auth, ups, pts, gen, crt, radd⟩ := st
  intro n d p hm
  cases pts with
  | error e => simp [runPipeline] at hm
  | ok tracks =>
    cases gen with
    | error e => simp [runPipeline] at hm
    | ok text => exact ⟨text, rfl⟩

/-- A population effect occurs in the pipeline trace only when creation
succeeded with that playlist id, and then strictly after the creation
effect. -/
lemma runPipeline_add_after_create (venue date style pid : String) (st : Stubs) :
    ∀ pl uris, Effect.addTracksToPlaylist pl uris ∈ (runPipeline venue date style pid st).1 →
      st.createdPlaylistId = Except.ok pl ∧
      ∃ l1 l2 n d, (runPipeline venue date style pid st).1
          = l1 ++ Effect.createPlaylist n d false :: l2
        ∧ Effect.addTracksToPlaylist pl uris ∈ l2 := by
  obtain ⟨auth, ups, pts, gen, crt, radd⟩ := st
  intro pl uris hm
  cases pts with
  | error e => simp [runPipeline] at hm
  | ok tracks =>
    cases gen with
    | error e => simp [runPipeline] at hm
    | ok text =>
      cases crt with
      | error e => simp [runPipeline] at hm
      | ok newId =>
        by_cases hlen : 0 < (matchPass (parseAIPlaylist text) tracks).1.length
        · cases radd with
          | error e =>
            simp only [runPipeline, hlen, if_true] at hm
            simp at hm
            obtain ⟨h1, h2⟩ := hm
            subst h1
            subst h2
            refine ⟨rfl, [Effect.getPlaylistTracks pid, Effect.generate],
              [Effect.addTracksToPlaylist pl
                (matchPass (parseAIPlaylist text) tracks).1],
              venue ++ " - " ++ date ++ " (" ++ style ++ ")",
              "AI-generated " ++ style ++ " playlist for " ++ venue ++ " on " ++ date,
              ?_, ?_⟩
            · simp [runPipeline, hlen]
            · exact List.mem_cons_self _ _
          | ok u =>
            simp only [runPipeline, hlen, if_true] at hm
            simp at hm
            obtain ⟨h1, h2⟩ := hm
            subst h1
            subst h2
            refine ⟨rfl, [Effect.getPlaylistTracks pid, Effect.generate],
              [Effect.addTracksToPlaylist pl
                (matchPass (parseAIPlaylist text) tracks).1],
              venue ++ " - " ++ date ++ " (" ++ style ++ ")",
              "AI-generated " ++ style ++ " playlist for " ++ venue ++ " on " ++ date,
              ?_, ?_⟩
            · simp [runPipeline, hlen]
            · exact List.mem_cons_self _ _
        · simp [runPipeline, hlen] at hm

/-- Lifting the pipeline effect-order facts over a prefix of effects that
contains no creation and no population effect. -/
lemma trace_lift_pipeline (pre : List Effect) (venue date style pid : String) (st : Stubs)
    (hc : ∀ n d p, Effect.createPlaylist n d p ∉ pre)
    (ha : ∀ pl uris, Effect.addTracksToPlaylist pl uris ∉ pre) :
    (∀ n d p, Effect.createPlaylist n d p ∈ pre ++ (runPipeline venue date style pid st).1 →
        ∃ text, st.generated = Except.ok text)
    ∧ (∀ pl uris,
        Effect.addTracksToPlaylist pl uris ∈ pre ++ (runPipeline venue date style pid st).1 →
        st.createdPlaylistId = Except.ok pl ∧
        ∃ l1 l2 n d, pre ++ (runPipeline venue date style pid st).1
            = l1 ++ Effect.createPlaylist n d false :: l2
          ∧ Effect.addTracksToPlaylist pl uris ∈ l2) := by
  constructor
  · intro n d p hm
    rcases List.mem_append.mp hm with h | h
    · exact absurd h (hc n d p)
    · exact runPipeline_create_generated venue date style pid st n d p h
  · intro pl uris hm
    rcases List.mem_append.mp hm with h | h
    · exact absurd h (ha pl uris)
    · obtain ⟨h1, l1, l2, n, d, heq, hmem⟩ :=
        runPipeline_add_after_create venue date style pid st pl uris h
      refine ⟨h1, pre ++ l1, l2, n, d, ?_, hmem⟩
      rw [heq, ← List.append_assoc]

/-!  Claim theorems.  -/

/-- C1: for every list of parsed song entries and every candidate track
list, after the full matching pass the number of matched track uris plus
the number of not-found entry strings equals the number of parsed
entries. -/
theorem matched_plus_unmatched_eq_total
    (playlistSongs : List String) (sourceTracks : List SpotifyTrack) :
    (matchPass playlistSongs sourceTracks).1.length
      + (matchPass playlistSongs sourceTracks).2.length
      = playlistSongs.length := by
  have h := matchPass_foldl_length sourceTracks playlistSongs ([], [])
  simpa [matchPass] using h

/-- C6: an entry whose hyphen split does not have exactly two parts is
classified unmatched for every candidate list, without either tier being
able to affect the result. -/
theorem malformed_entry_unmatched (s : String)
    (h : (splitChar '-' s.data).length ≠ 2) :
    ∀ libraryTracks, findMatchingTrack s libraryTracks = none :=
  findMatchingTrack_malformed s h

/-- Witness for C6 at the three-part entry string. -/
theorem malformed_entry_unmatched_witness :
    (splitChar '-' (String.data "A - B - C")).length ≠ 2 ∧
      findMatchingTrack "A - B - C" [oyeTrack] = none :=
  ⟨by decide, malformed_entry_unmatched "A - B - C" (by decide) [oyeTrack]⟩

/-- C10: every entry string containing at least two hyphen characters is
rejected by findMatchingTrack for every candidate list whatsoever, and
parseAIPlaylist can legitimately produce such entries. -/
theorem multi_hyphen_entries_never_match :
    (∀ (s : String) (tracks : List SpotifyTrack),
        2 ≤ s.data.count '-' → findMatchingTrack s tracks = none)
    ∧ parseAIPlaylist "A - B - C" = ["A - B - C"]
    ∧ (∀ tracks, findMatchingTrack "A - B - C" tracks = none) := by
  refine ⟨?_, by decide, ?_⟩
  · intro s tracks h
    exact findMatchingTrack_malformed s (by rw [splitChar_length]; omega) tracks
  · intro tracks
    exact findMatchingTrack_malformed "A - B - C" (by decide) tracks

/-- Witness for C10 at a concrete two-hyphen entry. -/
theorem multi_hyphen_entries_never_match_witness :
    2 ≤ (String.data "A - B - C").count '-' ∧
      findMatchingTrack "A - B - C" [oyeTrack] = none :=
  ⟨by decide, multi_hyphen_entries_never_match.1 "A - B - C" [oyeTrack] (by decide)⟩

/-- C2: for a well-formed entry (exactly two hyphen-separated parts) the
exact tier of findMatchingTrack returns the first candidate in scan order
satisfying the spec exact predicate; in particular the Tito Puente example
matches its candidate. -/
theorem exact_tier_first_in_scan_order :
    (∀ (songString : String) (p0 p1 : List Char) (tracks : List SpotifyTrack)
        (tr : SpotifyTrack),
        splitChar '-' songString.data = [p0, p1] →
        tracks.find? (specExactMatches (jsToLower (String.mk (jsTrimL p0)))
            (jsToLower (String.mk (jsTrimL p1)))) = some tr →
        findMatchingTrack songString tracks = some tr)
    ∧ findMatchingTrack "Tito Puente - Oye Como Va" [oyeTrack] = some oyeTrack := by
  constructor
  · intro s p0 p1 tracks tr hsplit hfind
    simp only [findMatchingTrack, hsplit]
    rw [exactTierLoop_eq_find, hfind]
  · decide

/-- Witness for C2 at the spec example. -/
theorem exact_tier_first_in_scan_order_witness :
    splitChar '-' (String.data "Tito Puente - Oye Como Va")
        = [("Tito Puente ").data, (" Oye Como Va").data] ∧
      findMatchingTrack "Tito Puente - Oye Como Va" [oyeTrack] = some oyeTrack :=
  ⟨by decide,
    exact_tier_first_in_scan_order.1 "Tito Puente - Oye Como Va"
      ("Tito Puente ").data (" Oye Como Va").data [oyeTrack] oyeTrack
      (by decide) (by decide)⟩

/-- C3: the lenient tier is consulted only when the exact tier found
nothing, and then findMatchingTrack returns the first candidate in scan
order satisfying the spec lenient predicate; in particular the live-title
example matches via this tier. -/
theorem lenient_tier_fallback :
    (∀ (songString : String) (p0 p1 : List Char) (tracks : List SpotifyTrack),
        splitChar '-' songString.data = [p0, p1] →
        exactTierLoop (jsToLower (String.mk (jsTrimL p0)))
            (jsToLower (String.mk (jsTrimL p1))) tracks = none →
        findMatchingTrack songString tracks =
          tracks.find? (specLenientMatches (jsToLower (String.mk (jsTrimL p0)))
            (jsToLower (String.mk (jsTrimL p1)))))
    ∧ exactTierLoop "puente" "oye como va (live)" [oyeTrack] = none
    ∧ findMatchingTrack "Puente - Oye Como Va (Live)" [oyeTrack] = some oyeTrack := by
  refine ⟨?_, by decide, by decide⟩
  intro s p0 p1 tracks hsplit hexact
  simp only [findMatchingTrack, hsplit]
  rw [hexact]
  exact lenientTierLoop_eq_find _ _ tracks

/-- The parse loop is a filterMap over the lines, for every accumulator. -/
lemma parse_foldl_filterMap :
    ∀ (lines : List (List Char)) (acc : List String),
      lines.foldl
        (fun songs line =>
          match wsSkipTop line with
          | some p => songs ++ [renderCaptures p]
          | none => songs) acc
      = acc ++ lines.filterMap (fun line => (wsSkipTop line).map renderCaptures) := by
  intro lines
  induction lines with
  | nil => intro acc; simp
  | cons l rest ih =>
    intro acc
    simp only [List.foldl_cons, List.filterMap_cons]
    cases hm : wsSkipTop l with
    | none => rw [ih]; simp
    | some p => rw [ih]; simp

/-- parseAIPlaylist keeps exactly the matching lines, in order, as a
filterMap over the split lines. -/
lemma parseAIPlaylist_eq_filterMap (playlistText : String) :
    parseAIPlaylist playlistText
      = (splitChar '\n' playlistText.data).filterMap
          (fun line => (wsSkipTop line).map renderCaptures) := by
  have h := parse_foldl_filterMap (splitChar '\n' playlistText.data) []
  simpa [parseAIPlaylist] using h

/-- C5: parseAIPlaylist keeps exactly the lines matching the song-line
pattern, in their original order, dropping all other lines, and returns
the empty list when no line matches; it is a total function. -/
theorem parse_keeps_exactly_matching_lines :
    (∀ playlistText : String,
      parseAIPlaylist playlistText
        = (splitChar '\n' playlistText.data).filterMap
            (fun line => (wsSkipTop line).map renderCaptures))
    ∧ (∀ playlistText : String,
        (∀ line ∈ splitChar '\n' playlistText.data, wsSkipTop line = none) →
        parseAIPlaylist playlistText = []) := by
  constructor
  · exact parseAIPlaylist_eq_filterMap
  · intro playlistText h
    rw [parseAIPlaylist_eq_filterMap]
    rw [List.filterMap_eq_nil_iff]
    intro line hl
    rw [h line hl]
    rfl

/-- C4 is refuted on the code: a line with more than one hyphen is split
at the FIRST hyphen consistent with the non-greedy artist pattern, not the
last (the title keeps the later hyphens), and a line beginning with a
hyphen even yields an artist segment containing a hyphen. -/
theorem parser_last_hyphen_counterexample :
    matchSongLine "a-b - c" = some ("a", "b - c")
    ∧ matchSongLine "a-b - c" ≠ some ("a-b", "c")
    ∧ 2 ≤ (String.data "a-b - c").count '-'
    ∧ matchSongLine "-a-b" = some ("-a", "b")
    ∧ '-' ∈ (String.data "-a")
    ∧ 2 ≤ (String.data "-a-b").count '-' :=
  ⟨by decide, by decide, by decide, by decide, by decide, by decide⟩

/-- C4 (amended): on a line of the form `artist - title` whose artist part
is nonempty, hyphen-free, whitespace-trimmed, free of line terminators and
not beginning with an ordinal numbering mark, and whose title part is
whitespace-trimmed and free of line terminators, the parser splits at the
FIRST hyphen: the produced artist segment is exactly the hyphen-free
artist part and the produced title segment is exactly the title part,
which may itself contain hyphens. -/
theorem parser_splits_on_first_hyphen (artist title : String)
    (hane : artist ≠ "")
    (hhyp : '-' ∉ artist.data)
    (hdotA : ∀ c ∈ artist.data, jsLineTerm c = false)
    (htrimA : jsTrim artist = artist)
    (hmark : hasOrdinalMark artist.data = false)
    (hdotT : ∀ c ∈ title.data, jsLineTerm c = false)
    (htrimT : jsTrim title = title) :
    (matchSongLine (artist ++ " - " ++ title)).map (fun p => (jsTrim p.1, jsTrim p.2))
      = some (artist, title) := by
  have hda : jsTrimL artist.data = artist.data := jsTrim_fix_data artist htrimA
  have hdt : jsTrimL title.data = title.data := jsTrim_fix_data title htrimT
  have hW := wsSkipTop_wellformed artist.data title.data (data_ne_nil artist hane) hhyp
    (fun c hc => by simp [dotMatch, hdotA c hc]) hda hmark
    (fun c hc => by simp [dotMatch, hdotT c hc]) hdt
  show ((wsSkipTop ((artist ++ " - " ++ title).data)).map
      (fun p => (String.mk p.1, String.mk p.2))).map
        (fun p => (jsTrim p.1, jsTrim p.2)) = some (artist, title)
  rw [entry_line_data, hW]
  show some (jsTrim (String.mk artist.data), jsTrim (String.mk (titleCapExp title.data)))
      = some (artist, title)
  have h1 : jsTrim (String.mk artist.data) = artist := by
    show String.mk (jsTrimL artist.data) = artist
    rw [hda]
  have h2 : jsTrim (String.mk (titleCapExp title.data)) = title := by
    show String.mk (jsTrimL (titleCapExp title.data)) = title
    rw [jsTrimL_titleCapExp title.data hdt]
  rw [h1, h2]

/-- Witness for the amended C4: artist `AC`, title `Back - In - Black`
with two further hyphens; the split lands on the first hyphen. -/
theorem parser_splits_on_first_hyphen_witness :
    (matchSongLine ("AC" ++ " - " ++ "Back - In - Black")).map
        (fun p => (jsTrim p.1, jsTrim p.2))
      = some ("AC", "Back - In - Black") :=
  parser_splits_on_first_hyphen "AC" "Back - In - Black" (by decide) (by decide)
    (by decide) (by decide) (by decide) (by decide) (by decide)

/-- Witness for C5 on a response with headers, a blank line and
commentary but no song line. -/
theorem parse_keeps_exactly_matching_lines_witness :
    (∀ line ∈ splitChar '\n' (String.data "## Notes\n\nEnjoy the set"),
        wsSkipTop line = none)
      ∧ parseAIPlaylist "## Notes\n\nEnjoy the set" = [] :=
  ⟨by decide,
    parse_keeps_exactly_matching_lines.2 "## Notes\n\nEnjoy the set" (by decide)⟩

/-- C9 is refuted on the code: the artist `1. Tito Puente` is hyphen-free
and whitespace-trimmed, yet re-parsing its rendered line strips the
leading `1. ` through the numbering group, so the round trip is not the
identity. -/
theorem parse_roundtrip_counterexample :
    ('-' ∉ (String.data "1. Tito Puente") ∧ jsTrim "1. Tito Puente" = "1. Tito Puente"
      ∧ '-' ∉ (String.data "Oye Como Va") ∧ jsTrim "Oye Como Va" = "Oye Como Va")
    ∧ parseAIPlaylist (jsJoin "\n" ["1. Tito Puente" ++ " - " ++ "Oye Como Va"])
        = ["Tito Puente - Oye Como Va"]
    ∧ ("Tito Puente - Oye Como Va" : String) ≠ "1. Tito Puente" ++ " - " ++ "Oye Como Va" :=
  ⟨⟨by decide, by decide, by decide, by decide⟩, by decide, by decide⟩

/-- C9 (amended): for entries whose artist and title are hyphen-free,
free of line terminators and whitespace-trimmed, and whose artist does not
begin with an ordinal numbering mark, parsing the newline join of the
rendered `artist - title` lines returns exactly those lines, in order. -/
theorem parse_roundtrip_normalized (entries : List (String × String))
    (h : ∀ e ∈ entries, goodEntry e) :
    parseAIPlaylist (jsJoin "\n" (entries.map (fun e => e.1 ++ " - " ++ e.2)))
      = entries.map (fun e => e.1 ++ " - " ++ e.2) := by
  cases entries with
  | nil => decide
  | cons e es =>
    rw [parseAIPlaylist_eq_filterMap]
    have hnol : ∀ l ∈ (e :: es).map (fun x => x.1 ++ " - " ++ x.2), '\n' ∉ l.data := by
      intro l hl
      obtain ⟨x, hx, rfl⟩ := List.mem_map.mp hl
      obtain ⟨⟨_, h2, _, _⟩, _, h6, _⟩ := h x hx
      rw [entry_line_data]
      intro hm
      rcases List.mem_append.mp hm with hm1 | hm2
      · have hcon := h2 '\n' hm1
        exact absurd hcon (by decide)
      · simp only [List.mem_cons] at hm2
        rcases hm2 with h' | h' | h' | h'
        · exact absurd h' (by decide)
        · exact absurd h' (by decide)
        · exact absurd h' (by decide)
        · exact absurd (h6 '\n' h') (by decide)
    rw [splitChar_jsJoin ((e :: es).map (fun x => x.1 ++ " - " ++ x.2)) (by simp) hnol]
    rw [List.map_map]
    exact filterMap_entry_lines (e :: es) h

/-- Witness for the amended C9 on two normalized entries. -/
theorem parse_roundtrip_normalized_witness :
    (∀ e ∈ [(("Tito Puente" : String), ("Oye Como Va" : String)),
        ("Celia Cruz", "La Vida Es Un Carnaval")], goodEntry e)
    ∧ parseAIPlaylist (jsJoin "\n"
        ([(("Tito Puente" : String), ("Oye Como Va" : String)),
          ("Celia Cruz", "La Vida Es Un Carnaval")].map (fun e => e.1 ++ " - " ++ e.2)))
      = [(("Tito Puente" : String), ("Oye Como Va" : String)),
          ("Celia Cruz", "La Vida Es Un Carnaval")].map (fun e => e.1 ++ " - " ++ e.2) :=
  ⟨by decide, parse_roundtrip_normalized _ (by decide)⟩

/-- C7: in the generate-from-playlist handler a destination playlist
creation effect occurs only when generation succeeded (the matching pass
is a total pure function and cannot fail), and a population effect occurs
only when creation succeeded with exactly that playlist id and strictly
after the creation effect in the trace. -/
theorem playlist_side_effect_order
    (venue date style playlistId libraryPlaylistId : Option String) (st : Stubs) :
    (∀ n d p, Effect.createPlaylist n d p
        ∈ (generateFromPlaylistHandler venue date style playlistId libraryPlaylistId st).1 →
        ∃ text, st.generated = Except.ok text)
    ∧ (∀ pl uris, Effect.addTracksToPlaylist pl uris
        ∈ (generateFromPlaylistHandler venue date style playlistId libraryPlaylistId st).1 →
        st.createdPlaylistId = Except.ok pl ∧
        ∃ l1 l2 n d,
          (generateFromPlaylistHandler venue date style playlistId libraryPlaylistId st).1
            = l1 ++ Effect.createPlaylist n d false :: l2
          ∧ Effect.addTracksToPlaylist pl uris ∈ l2) := by
  by_cases hval : (falsy venue || falsy date || falsy style) = true
  · have heq : generateFromPlaylistHandler venue date style playlistId libraryPlaylistId st
        = ([], HandlerResponse.json 400 false (some missingFieldsMsg)) := by
      unfold generateFromPlaylistHandler
      rw [if_pos hval]
    rw [heq]
    simp
  · by_cases hauth : st.authOk = true
    · by_cases hpid : falsy playlistId = true
      · cases libraryPlaylistId with
        | some lib =>
          have heq : (generateFromPlaylistHandler venue date style playlistId (some lib) st).1
              = [Effect.getUserAccessToken]
                ++ (runPipeline (venue.getD "") (date.getD "") (style.getD "") lib st).1 := by
            unfold generateFromPlaylistHandler
            rw [if_neg hval, if_neg (by rw [hauth]; exact Bool.false_ne_true), if_pos hpid]
            rfl
          rw [heq]
          exact trace_lift_pipeline [Effect.getUserAccessToken] _ _ _ lib st
            (fun n d p => by simp) (fun pl uris => by simp)
        | none =>
          cases hups : st.userPlaylists with
          | error e =>
            have heq : (generateFromPlaylistHandler venue date style playlistId none st).1
                = [Effect.getUserAccessToken, Effect.getUserPlaylists] := by
              unfold generateFromPlaylistHandler
              rw [if_neg hval, if_neg (by rw [hauth]; exact Bool.false_ne_true), if_pos hpid,
                hups]
            rw [heq]
            constructor
            · intro n d p hm
              simp at hm
            · intro pl uris hm
              simp at hm
          | ok playlists =>
            cases hf : playlists.find? (fun p => p.1 == "DJ AI Song Library") with
            | some p =>
              have heq : (generateFromPlaylistHandler venue date style playlistId none st).1
                  = [Effect.getUserAccessToken, Effect.getUserPlaylists]
                    ++ (runPipeline (venue.getD "") (date.getD "") (style.getD "") p.2 st).1 := by
                unfold generateFromPlaylistHandler
                rw [if_neg hval, if_neg (by rw [hauth]; exact Bool.false_ne_true), if_pos hpid,
                  hups]
                simp only []
                rw [hf]
                rfl
              rw [heq]
              exact trace_lift_pipeline [Effect.getUserAccessToken, Effect.getUserPlaylists]
                _ _ _ p.2 st (fun n d p => by simp) (fun pl uris => by simp)
            | none =>
              have heq : (generateFromPlaylistHandler venue date style playlistId none st).1
                  = [Effect.getUserAccessToken, Effect.getUserPlaylists] := by
                unfold generateFromPlaylistHandler
                rw [if_neg hval, if_neg (by rw [hauth]; exact Bool.false_ne_true), if_pos hpid,
                  hups]
                simp only []
                rw [hf]
              rw [heq]
              constructor
              · intro n d p hm
                simp at hm
              · intro pl uris hm
                simp at hm
      · have heq : (generateFromPlaylistHandler venue date style playlistId libraryPlaylistId st).1
            = [Effect.getUserAccessToken]
              ++ (runPipeline (venue.getD "") (date.getD "") (style.getD "")
                  (extractPlaylistId (playlistId.getD "")) st).1 := by
          unfold generateFromPlaylistHandler
          rw [if_neg hval, if_neg (by rw [hauth]; exact Bool.false_ne_true), if_neg hpid]
          rfl
        rw [heq]
        exact trace_lift_pipeline [Effect.getUserAccessToken] _ _ _
          (extractPlaylistId (playlistId.getD "")) st
          (fun n d p => by simp) (fun pl uris => by simp)
    · have hfalse : st.authOk = false := by
        cases hb : st.authOk with
        | false => rfl
        | true => exact absurd hb hauth
      have heq : (generateFromPlaylistHandler venue date style playlistId libraryPlaylistId st).1
          = [Effect.getUserAccessToken] := by
        unfold generateFromPlaylistHandler
        rw [if_neg hval, if_pos (show (!st.authOk) = true by rw [hfalse]; rfl)]
      rw [heq]
      constructor
      · intro n d p hm
        simp at hm
      · intro pl uris hm
        simp at hm

/-- Witness for C7: a fully successful run with an explicit source
playlist id; the population effect follows the creation effect. -/
theorem playlist_side_effect_order_witness :
    Effect.addTracksToPlaylist "NEWPL" ["spotify:track:oye"]
        ∈ (generateFromPlaylistHandler (some "V") (some "D") (some "S") (some "PL") none stubsOk).1
    ∧ stubsOk.createdPlaylistId = Except.ok "NEWPL"
    ∧ ∃ l1 l2 n d,
        (generateFromPlaylistHandler (some "V") (some "D") (some "S") (some "PL") none stubsOk).1
          = l1 ++ Effect.createPlaylist n d false :: l2
        ∧ Effect.addTracksToPlaylist "NEWPL" ["spotify:track:oye"] ∈ l2 := by
  have hmem : Effect.addTracksToPlaylist "NEWPL" ["spotify:track:oye"]
      ∈ (generateFromPlaylistHandler (some "V") (some "D") (some "S") (some "PL") none stubsOk).1 := by
    decide
  have h := (playlist_side_effect_order (some "V") (some "D") (some "S") (some "PL")
    none stubsOk).2 "NEWPL" ["spotify:track:oye"] hmem
  exact ⟨hmem, h.1, h.2⟩

/-- C8: a request to either generation endpoint with a missing or empty
venue, date or style is rejected with status 400, success false and the
validation message, and the effect trace is empty, so no
generation-backend or catalog call is attempted. -/
theorem missing_fields_rejected
    (venue date style playlistId libraryPlaylistId : Option String) (st : Stubs)
    (h : (falsy venue || falsy date || falsy style) = true) :
    generateHandler venue date style st
        = ([], HandlerResponse.json 400 false (some missingFieldsMsg))
    ∧ generateFromPlaylistHandler venue date style playlistId libraryPlaylistId st
        = ([], HandlerResponse.json 400 false (some missingFieldsMsg)) := by
  constructor
  · unfold generateHandler
    rw [if_pos h]
  · unfold generateFromPlaylistHandler
    rw [if_pos h]

/-- Witness for C8: a request omitting style is rejected by both
endpoints with an empty effect trace. -/
theorem missing_fields_rejected_witness :
    (falsy (some "La Tropical") || falsy (some "2023-07-15") || falsy none) = true
    ∧ generateHandler (some "La Tropical") (some "2023-07-15") none stubsOk
        = ([], HandlerResponse.json 400 false (some missingFieldsMsg))
    ∧ generateFromPlaylistHandler (some "La Tropical") (some "2023-07-15") none none none stubsOk
        = ([], HandlerResponse.json 400 false (some missingFieldsMsg)) :=
  ⟨by decide,
    (missing_fields_rejected (some "La Tropical") (some "2023-07-15") none none none stubsOk
      (by decide)).1,
    (missing_fields_rejected (some "La Tropical") (some "2023-07-15") none none none stubsOk
      (by decide)).2⟩

/-- Witness for C3 at the spec example. -/
theorem lenient_tier_fallback_witness :
    splitChar '-' (String.data "Puente - Oye Como Va (Live)")
        = [("Puente ").data, (" Oye Como Va (Live)").data] ∧
      findMatchingTrack "Puente - Oye Como Va (Live)" [oyeTrack] =
        [oyeTrack].find? (specLenientMatches
          (jsToLower (String.mk (jsTrimL ("Puente ").data)))
          (jsToLower (String.mk (jsTrimL (" Oye Como Va (Live)").data)))) :=
  ⟨by decide,
    lenient_tier_fallback.1 "Puente - Oye Como Va (Live)"
      ("Puente ").data (" Oye Como Va (Live)").data [oyeTrack]
      (by decide) (by decide)⟩

end DJAI
